import Mathlib

/-!
Verification of the selenium-scrape pipeline against its specification.

This file gives a shallow embedding, in Lean 4, of the parts of the
`kuokiii/selenium-scrape` repository that the frozen claims C1..C10 are
about, and settles each claim against it:

* `ProxyManager` (`getNextProxy` / `getRandomProxy` rotation),
* `RateLimiter.checkRateLimit` (sliding-window rate limiting),
* `ContentExtractor` (link classification, image format detection,
  image download records, filename generation, contact-info regexes,
  the `extractAll` aggregate), and
* the `POST /api/scrape` route's session teardown discipline.

Pure functions of the TypeScript source become Lean functions; stateful
code becomes explicit state passing; driver / network / filesystem
effects become explicit oracle values (`Except` / `Option` fields of a
record describing one page or one request).  The WHATWG `URL` platform
class, which the source calls, is modelled by `JSUrl.parse` /
`JSUrl.resolve` below, restricted to the hierarchical fragment the
source exercises (no userinfo, no percent-encoding, no dot-segment
normalization, no default-port stripping beyond http/https).
-/

namespace SeleniumScrape

/-! ## Proxy manager (src/Dockerfile tail, `ProxyManager`)

```ts
getRandomProxy(): ProxyConfig | null {
  if (this.proxies.length === 0) return null
  const randomIndex = Math.floor(Math.random() * this.proxies.length)
  return this.proxies[randomIndex]
}
getNextProxy(): ProxyConfig | null {
  if (this.proxies.length === 0) return null
  const proxy = this.proxies[this.currentIndex]
  this.currentIndex = (this.currentIndex + 1) % this.proxies.length
  return proxy
}
```

`Math.random()` is modelled by an arbitrary natural number `rand`;
`Math.floor(Math.random() * n)` ranges over `0..n-1`, modelled `rand % n`.
The mutable `currentIndex` is passed explicitly. -/

structure ProxyConfig where
  host : String
  port : Nat
  username : Option String := none
  password : Option String := none
  ptype : String := "http"
deriving DecidableEq, Repr

/-- Embedding of `ProxyManager.getRandomProxy`; `rand` stands for the
`Math.random()` draw, used only when the list is non-empty. -/
def getRandomProxy (proxies : List ProxyConfig) (rand : Nat) : Option ProxyConfig :=
  if proxies.length = 0 then none
  else proxies.get? (rand % proxies.length)

/-- Embedding of `ProxyManager.getNextProxy`: returns the proxy at the
current index and the updated index `(i+1) % n`; on an empty list it
returns `none` and leaves the index unchanged. -/
def getNextProxy (proxies : List ProxyConfig) (currentIndex : Nat) :
    Option ProxyConfig × Nat :=
  if proxies.length = 0 then (none, currentIndex)
  else (proxies.get? currentIndex, (currentIndex + 1) % proxies.length)

/-- `k` successive calls of `getNextProxy` starting from index `i`:
the list of returned proxies together with the final index. -/
def nextProxyRun (proxies : List ProxyConfig) : Nat → Nat → List (Option ProxyConfig) × Nat
  | i, 0 => ([], i)
  | i, Nat.succ k =>
    let step := getNextProxy proxies i
    let rest := nextProxyRun proxies step.2 k
    (step.1 :: rest.1, rest.2)

/-! ## Rate limiter (src/unnamed/part_003, `RateLimiter.checkRateLimit`)

```ts
async checkRateLimit(identifier: string): Promise<boolean> {
  const now = Date.now()
  const requests = this.requests.get(identifier) || []
  const validRequests = requests.filter((timestamp) => now - timestamp < this.timeWindow)
  if (validRequests.length >= this.maxRequests) {
    return false // Rate limit exceeded
  }
  validRequests.push(now)
  this.requests.set(identifier, validRequests)
  return true
}
```

`Date.now()` timestamps are modelled as integers (milliseconds); the
per-identifier stored timestamp list is passed explicitly (a fixed
identifier's slot of the `requests` map). -/

/-- The pruning step of `checkRateLimit`: keep timestamps `t` with
`now - t < timeWindow`. -/
def pruneRequests (timeWindow now : Int) (requests : List Int) : List Int :=
  requests.filter (fun t => decide (now - t < timeWindow))

/-- Embedding of `RateLimiter.checkRateLimit` for one identifier:
returns the allow/deny decision and the new stored list.  On deny the
stored list is returned unchanged (the code does not write back the
pruned list); on allow the pruned list with `now` appended is stored. -/
def checkRateLimit (maxRequests : Nat) (timeWindow now : Int) (requests : List Int) :
    Bool × List Int :=
  let validRequests := pruneRequests timeWindow now requests
  if maxRequests ≤ validRequests.length then (false, requests)
  else (true, validRequests ++ [now])

/-- A sequence of `checkRateLimit` calls at the given times, starting
from stored state `S`: final state plus the per-call `(now, allowed)` log. -/
def rateLimitRun (maxRequests : Nat) (timeWindow : Int) :
    List Int → List Int → List Int × List (Int × Bool)
  | S, [] => (S, [])
  | S, t :: ts =>
    let step := checkRateLimit maxRequests timeWindow t S
    let rest := rateLimitRun maxRequests timeWindow step.2 ts
    (rest.1, (t, step.1) :: rest.2)

/-- The times of the allowed calls of a run log. -/
def allowedTimes (log : List (Int × Bool)) : List Int :=
  (log.filter (fun e => e.2)).map (fun e => e.1)

/-- The window predicate: time `a` lies in the half-open window
`[T, T + W)`. -/
def inWindow (T W : Int) (a : Int) : Bool :=
  decide (T ≤ a) && decide (a < T + W)

/-! ## JavaScript string primitives

The extractor calls JavaScript string methods (`startsWith`, `endsWith`,
`toLowerCase`, `split`, `trim`, `includes`); they are embedded here over
`List Char`, the character list of a Lean `String`.  `\s` and `trim`'s
whitespace class is modelled by the common ASCII whitespace characters. -/

def isJsWhitespace (c : Char) : Bool :=
  c = ' ' || c = '\t' || c = '\n' || c = '\r' || c = '\x0b' || c = '\x0c'

/-- JS `s.startsWith(pre)`. -/
def jsStartsWith (s pre : String) : Bool :=
  pre.data.isPrefixOf s.data

/-- JS `s.endsWith(suf)`. -/
def jsEndsWith (s suf : String) : Bool :=
  suf.data.isSuffixOf s.data

/-- JS `s.toLowerCase()` (ASCII). -/
def jsToLower (s : String) : String :=
  String.mk (s.data.map Char.toLower)

/-- JS `s.split(sep)` for a one-character separator, on character lists:
`"a..b".split(".") = ["a","","b"]`, `"".split(".") = [""]`. -/
def jsSplit (sep : Char) : List Char → List (List Char)
  | [] => [[]]
  | c :: rest =>
    let r := jsSplit sep rest
    if c = sep then [] :: r
    else
      match r with
      | [] => [[c]]
      | h :: t => (c :: h) :: t

/-- JS `s.trim()`. -/
def jsTrim (s : String) : String :=
  String.mk (((s.data.dropWhile isJsWhitespace).reverse.dropWhile isJsWhitespace).reverse)

/-- `[...new Set(l)]`: deduplication keeping first occurrences in order. -/
def jsSetDedup (l : List String) : List String :=
  l.foldl (fun acc x => if x ∈ acc then acc else acc ++ [x]) []

/-! ## The WHATWG `URL` platform class (as used by the source)

The source constructs `new URL(href)`, `new URL(src, baseUrl)` and reads
`.hostname`, `.pathname`, `.href`.  `JSUrl.parse`/`JSUrl.resolve` model
the constructor on the hierarchical fragment the source exercises:
scheme, `//host[:port]`, path, query, fragment; userinfo before the last
`@` is dropped, the host is lowercased, http/https default ports are
stripped.  Not modelled (out of the exercised fragment): percent-
encoding, dot-segment normalization, IDNA, IPv6 hosts, and the special
treatment of `http:` URLs written without `//`. -/

structure JSUrl where
  protocol : String
  hostname : String
  port : String
  pathname : String
  search : String
  hash : String
deriving DecidableEq, Repr

def schemeTake (acc : List Char) : List Char → Option (List Char × List Char)
  | [] => none
  | c :: rest =>
    if c = ':' then some (acc.reverse, rest)
    else if c.isAlpha || c.isDigit || c = '+' || c = '-' || c = '.' then
      schemeTake (c :: acc) rest
    else none

def schemeSplit (l : List Char) : Option (List Char × List Char) :=
  match l with
  | [] => none
  | c :: _ => if c.isAlpha then schemeTake [] l else none

/-- Split the part after the authority into pathname / search / hash. -/
def pathSearchHash (r : List Char) : String × String × String :=
  let ps := r.span (fun c => !(c = '?' || c = '#'))
  let qh := ps.2.span (fun c => !(c = '#'))
  (String.mk ps.1, String.mk qh.1, String.mk qh.2)

def parseAuthority (auth : List Char) : Option (String × String) :=
  let hostport := (auth.reverse.takeWhile (fun c => c ≠ '@')).reverse
  let hp := hostport.span (fun c => !(c = ':'))
  if hp.1 = [] then none
  else
    match hp.2 with
    | [] => some (String.mk (hp.1.map Char.toLower), "")
    | _ :: portChars =>
      if portChars.all Char.isDigit then
        some (String.mk (hp.1.map Char.toLower), String.mk portChars)
      else none

def stripDefaultPort (scheme port : String) : String :=
  if (scheme = "http" && port = "80") || (scheme = "https" && port = "443") then ""
  else port

/-- `new URL(s)`: `none` models the thrown `TypeError` on an invalid URL. -/
def JSUrl.parse (s : String) : Option JSUrl :=
  match schemeSplit s.data with
  | none => none
  | some (schemeChars, rest) =>
    let scheme := String.mk (schemeChars.map Char.toLower)
    match rest with
    | '/' :: '/' :: r2 =>
      let ar := r2.span (fun c => !(c = '/' || c = '?' || c = '#'))
      match parseAuthority ar.1 with
      | none => none
      | some (host, port) =>
        let psh := pathSearchHash ar.2
        some { protocol := scheme, hostname := host,
               port := stripDefaultPort scheme port,
               pathname := if psh.1 = "" then "/" else psh.1,
               search := psh.2.1, hash := psh.2.2 }
    | _ =>
      let psh := pathSearchHash rest
      some { protocol := scheme, hostname := "", port := "",
             pathname := psh.1, search := psh.2.1, hash := psh.2.2 }

/-- The serialized URL, `.href`. -/
def JSUrl.href (u : JSUrl) : String :=
  u.protocol ++ ":" ++
    (if u.hostname ≠ "" then
      "//" ++ u.hostname ++ (if u.port ≠ "" then ":" ++ u.port else "")
     else "") ++
    u.pathname ++ u.search ++ u.hash

/-- The base directory of a base URL's path: everything up to and
including the last `/`. -/
def dirOf (pathname : String) : List Char :=
  let r := pathname.data.reverse.dropWhile (fun c => c ≠ '/')
  if r = [] then ['/'] else r.reverse

/-- `new URL(input, base)`: `input` taken absolute if it parses,
otherwise resolved against `base`; `none` models the thrown `TypeError`. -/
def JSUrl.resolve (input base : String) : Option JSUrl :=
  match JSUrl.parse input with
  | some u => some u
  | none =>
    match JSUrl.parse base with
    | none => none
    | some b =>
      match input.data with
      | '/' :: '/' :: _ => JSUrl.parse (b.protocol ++ ":" ++ input)
      | '/' :: _ =>
        let psh := pathSearchHash input.data
        some { b with pathname := psh.1, search := psh.2.1, hash := psh.2.2 }
      | '?' :: _ =>
        let psh := pathSearchHash input.data
        some { b with search := psh.2.1, hash := psh.2.2 }
      | '#' :: _ => some { b with hash := input }
      | [] => some { b with hash := "" }
      | _ =>
        let psh := pathSearchHash input.data
        let mergedPath := String.mk (dirOf b.pathname ++ psh.1.data)
        some { b with pathname := mergedPath, search := psh.2.1, hash := psh.2.2 }


/-! ## Content extractor: link classification
(src/lib/content-extractor.ts, `getLinkType` / `extractLinks`)

```ts
private getLinkType(href: string, baseUrl: string): LinkData["type"] {
  if (href.startsWith("mailto:")) return "email"
  if (href.startsWith("tel:")) return "phone"
  if (href.startsWith("#") || href.startsWith("/")) return "internal"
  try {
    const url = new URL(href)
    const baseUrlObj = new URL(baseUrl)
    const fileExtensions = [".pdf", ".doc", ".docx", ".xls", ".xlsx",
                            ".zip", ".rar", ".mp3", ".mp4", ".avi"]
    if (fileExtensions.some((ext) => url.pathname.toLowerCase().endsWith(ext)))
      return "file"
    return url.hostname === baseUrlObj.hostname ? "internal" : "external"
  } catch {
    return "internal"
  }
}
```
and, in `extractLinks`,
`domain = type === "external" ? new URL(href).hostname : undefined`. -/

inductive LinkType
  | internal
  | external
  | email
  | phone
  | file
deriving DecidableEq, Repr

def fileExtensions : List String :=
  [".pdf", ".doc", ".docx", ".xls", ".xlsx", ".zip", ".rar", ".mp3", ".mp4", ".avi"]

/-- Embedding of `ContentExtractor.getLinkType`. -/
def getLinkType (href baseUrl : String) : LinkType :=
  if jsStartsWith href "mailto:" then .email
  else if jsStartsWith href "tel:" then .phone
  else if jsStartsWith href "#" || jsStartsWith href "/" then .internal
  else
    match JSUrl.parse href, JSUrl.parse baseUrl with
    | some url, some baseUrlObj =>
      if fileExtensions.any (fun ext => jsEndsWith (jsToLower url.pathname) ext) then
        .file
      else if url.hostname = baseUrlObj.hostname then .internal
      else .external
    | _, _ => .internal

/-- The `{type, domain}` pair `extractLinks` attaches to one anchor:
the classification together with `new URL(href).hostname` exactly when
the type is external. -/
def classifyLink (href baseUrl : String) : LinkType × Option String :=
  let t := getLinkType href baseUrl
  (t, if t = LinkType.external then (JSUrl.parse href).map (fun u => u.hostname) else none)

/-- Written from the words of claim C1, reading its case list in order:
email; phone; internal when the href starts with `#` or `/` **or** is an
absolute URL whose hostname equals the base hostname; file when the
URL's path ends with an extension in the fixed set; external otherwise,
with the domain set to the href's hostname exactly when the type is
external. -/
def classifySpecClaim (href baseUrl : String) : LinkType × Option String :=
  if jsStartsWith href "mailto:" then (.email, none)
  else if jsStartsWith href "tel:" then (.phone, none)
  else if jsStartsWith href "#" || jsStartsWith href "/"
      || (match JSUrl.parse href, JSUrl.parse baseUrl with
          | some u, some b => decide (u.hostname = b.hostname)
          | _, _ => false) then (.internal, none)
  else if (match JSUrl.parse href with
          | some u => fileExtensions.any (fun ext => jsEndsWith (jsToLower u.pathname) ext)
          | none => false) then (.file, none)
  else (.external, (JSUrl.parse href).map (fun u => u.hostname))

/-- Written from the amended claim C1: as the original claim, except
that (a) the file-extension rule takes precedence over the equal-
hostname rule, and (b) an href for which URL parsing fails (after the
`mailto:`/`tel:`/`#`/`/` prefixes are ruled out) is classified internal
with domain absent. -/
def classifySpecAmended (href baseUrl : String) : LinkType × Option String :=
  if jsStartsWith href "mailto:" then (.email, none)
  else if jsStartsWith href "tel:" then (.phone, none)
  else if jsStartsWith href "#" || jsStartsWith href "/" then (.internal, none)
  else
    match JSUrl.parse href, JSUrl.parse baseUrl with
    | some u, some b =>
      if fileExtensions.any (fun ext => jsEndsWith (jsToLower u.pathname) ext) then
        (.file, none)
      else if u.hostname = b.hostname then (.internal, none)
      else (.external, some u.hostname)
    | _, _ => (.internal, none)

/-! ## Content extractor: image format and filename
(src/lib/content-extractor.ts, `getImageFormat`, `generateImageFilename`)

```ts
private getImageFormat(url: string): string | undefined {
  const extension = url.split(".").pop()?.toLowerCase()
  const formats = ["jpg", "jpeg", "png", "gif", "webp", "svg", "bmp", "ico"]
  return formats.includes(extension || "") ? extension : undefined
}
private generateImageFilename(url: string, format?: string): string {
  const urlObj = new URL(url)
  const pathname = urlObj.pathname
  const filename = pathname.split("/").pop() || "image"
  if (!filename.includes(".") && format) {
    return `${filename}.${format}`
  }
  return filename || `image_${Date.now()}.jpg`
}
```
`Date.now()` is passed in as the parameter `now`. -/

def imageFormats : List String :=
  ["jpg", "jpeg", "png", "gif", "webp", "svg", "bmp", "ico"]

/-- Embedding of `ContentExtractor.getImageFormat`. -/
def getImageFormat (url : String) : Option String :=
  let extension := String.mk (((jsSplit '.' url.data).getLastD []).map Char.toLower)
  if imageFormats.contains extension then some extension else none

/-- Written from claim C8's words: the URL's trailing extension — the
characters after the last `.` of the URL, when the URL contains a `.`. -/
def trailingExtension (s : String) : Option String :=
  if s.data.contains '.' then
    some (String.mk ((s.data.reverse.takeWhile (fun c => c ≠ '.')).reverse))
  else none

/-- Embedding of `ContentExtractor.generateImageFilename`; `none`
models the `TypeError` thrown by `new URL(url)` on an unparsable URL. -/
def generateImageFilename (now : Nat) (url : String) (format : Option String) :
    Option String :=
  (JSUrl.parse url).map fun urlObj =>
    let seg := (jsSplit '/' urlObj.pathname.data).getLastD []
    let filename : String := if seg.isEmpty then "image" else String.mk seg
    let fmtTruthy : Option String :=
      match format with
      | some f => if f ≠ "" then some f else none
      | none => none
    match fmtTruthy, filename.data.contains '.' with
    | some f, false => filename ++ "." ++ f
    | _, _ => if filename ≠ "" then filename else "image_" ++ toString now ++ ".jpg"

/-- Written from the amended claim C9: the filename is the last path
segment of the URL (the constant `"image"` when that segment is empty);
if the name has no extension and a non-empty format was detected, the
format is appended; no timestamp is ever involved. -/
def filenameSpecAmended (url : String) (format : Option String) : Option String :=
  (JSUrl.parse url).map fun u =>
    let seg := (jsSplit '/' u.pathname.data).getLastD []
    let base : String := if seg.isEmpty then "image" else String.mk seg
    match format with
    | some f => if f ≠ "" ∧ base.data.contains '.' = false then base ++ "." ++ f else base
    | none => base

/-! ## Content extractor: data model
(src/lib/content-extractor.ts, the exported interfaces)

The `type` fields of `List`, `Form` fields and `LinkData` are renamed
`kind` / `ftype` / `ltype` (`type` is a Lean keyword); `List` of the
source is `ListData` here. -/

/-- An opaque successfully-parsed `JSON.parse` result, identified by its
raw text: the extractor never inspects parsed JSON-LD values, it only
collects them. -/
structure JsonVal where
  raw : String
deriving DecidableEq, Repr

structure Heading where
  level : Nat
  text : String
  id : Option String
deriving DecidableEq, Repr

inductive ListKind
  | ordered
  | unordered
deriving DecidableEq, Repr

structure ListData where
  kind : ListKind
  items : List String
deriving DecidableEq, Repr

structure Table where
  headers : List String
  rows : List (List String)
  caption : Option String
deriving DecidableEq, Repr

structure FormField where
  name : Option String
  ftype : String
  label : Option String
  placeholder : Option String
  required : Bool
  options : Option (List String)
deriving DecidableEq, Repr

structure Form where
  action : Option String
  method : Option String
  fields : List FormField
deriving DecidableEq, Repr

structure ImageData where
  src : String
  alt : String
  title : Option String := none
  width : Option String := none
  height : Option String := none
  format : Option String := none
  size : Option Nat := none
  downloaded : Option Bool := none
  localPath : Option String := none
deriving DecidableEq, Repr

structure LinkData where
  href : String
  text : String
  title : Option String
  ltype : LinkType
  domain : Option String
deriving DecidableEq, Repr

structure Metadata where
  charset : Option String
  viewport : Option String
  robots : Option String
  canonical : Option String
  openGraph : List (String × String)
  twitterCard : List (String × String)
  jsonLd : List JsonVal
deriving DecidableEq, Repr

inductive SDItem
  | json (v : JsonVal)
  | micro (itemType : Option String) (props : List (String × String))
deriving DecidableEq, Repr

structure SocialMediaData where
  facebook : Option String := none
  twitter : Option String := none
  instagram : Option String := none
  linkedin : Option String := none
  youtube : Option String := none
  tiktok : Option String := none
deriving DecidableEq, Repr

structure ContactInfo where
  emails : List String
  phones : List String
  addresses : List String
deriving DecidableEq, Repr

structure ExtractedContent where
  url : String
  title : String
  description : String
  keywords : List String
  author : String
  publishDate : String
  language : String
  textContent : String
  cleanedText : String
  headings : List Heading
  paragraphs : List String
  lists : List ListData
  tables : List Table
  forms : List Form
  images : List ImageData
  links : List LinkData
  metadata : Metadata
  structuredData : List SDItem
  socialMedia : SocialMediaData
  contactInfo : ContactInfo
  downloadedImages : Option (List String) := none
deriving DecidableEq, Repr

/-! ## The driver oracle

One `Driver` value describes the outcomes of every Selenium interaction
`extractAll` performs on one page.  Each field extractor's whole
DOM-reading `try` block is represented by one `Except`-valued field:
`.error` means some driver call inside that block threw (the extractor's
`catch` turns it into an empty value), `.ok` carries the raw attribute
and text data the block read.  `getAttribute` results are
`Option String` (`none` = attribute absent / `null`); `getMetaContent`
and `getLinkHref` catch internally and are modelled by total lookup
tables.  The three driver calls `extractAll` performs *outside* any
`try` — `getCurrentUrl()`, `getTitle()` and the
`document.documentElement.lang` script — keep their own `Except` fields,
a `null` script result being folded to `""` (both fall to `"en"`). -/

structure RawHeading where
  level : Nat
  text : String
  id : Option String
deriving DecidableEq, Repr

structure RawListPair where
  ols : List (List String)
  uls : List (List String)
deriving DecidableEq, Repr

structure RawTable where
  caption : Option String
  headers : List String
  rows : List (List String)
deriving DecidableEq, Repr

structure RawField where
  ftype : Option String
  name : Option String
  placeholder : Option String
  required : Bool
  label : Option String
  options : List String
deriving DecidableEq, Repr

structure RawForm where
  action : Option String
  method : Option String
  fields : List RawField
deriving DecidableEq, Repr

structure RawImg where
  src : Option String
  alt : Option String
  title : Option String
  width : Option String
  height : Option String
deriving DecidableEq, Repr

structure RawLink where
  href : Option String
  text : String
  title : Option String
deriving DecidableEq, Repr

structure RawProp where
  name : Option String
  content : Option String
  text : String
deriving DecidableEq, Repr

structure RawMicro where
  itemtype : Option String
  props : List RawProp
deriving DecidableEq, Repr

structure MetaRaw where
  og : List (Option String × Option String)
  twitter : List (Option String × Option String)
  jsonLd : List (Option JsonVal)
deriving DecidableEq, Repr

structure SocialRaw where
  facebook : Option String := none
  twitter : Option String := none
  instagram : Option String := none
  linkedin : Option String := none
  youtube : Option String := none
  tiktok : Option String := none
deriving DecidableEq, Repr

structure Driver where
  currentUrl : Except String String
  pageTitle : Except String String
  langScript : Except String String
  bodyText : Except String String
  metaContent : List (String × String)
  linkHref : List (String × String)
  metaRaw : Except String MetaRaw
  headings : Except String (List RawHeading)
  paragraphs : Except String (List String)
  lists : Except String RawListPair
  tables : Except String (List RawTable)
  forms : Except String (List RawForm)
  imgs : Except String (List RawImg)
  links : Except String (List RawLink)
  structured : Except String (List (Option JsonVal) × List RawMicro)
  social : Except String SocialRaw
deriving Repr

/-! ## Content extractor: field extractors
(src/lib/content-extractor.ts, `ContentExtractor`) -/

/-- JS `a || b` where `a` is a string-or-undefined and the empty string
is falsy. -/
def jsFalsyOr (a : Option String) (b : String) : String :=
  match a with
  | some s => if s ≠ "" then s else b
  | none => b

/-- JS `a || undefined` for a string-or-undefined value. -/
def nonEmptyOpt (o : Option String) : Option String :=
  match o with
  | some s => if s ≠ "" then some s else none
  | none => none

/-- JS object property assignment `m[k] = v` on a string-keyed record
(earlier value overwritten). -/
def objInsert (m : List (String × String)) (k v : String) : List (String × String) :=
  (m.filter (fun p => p.1 ≠ k)) ++ [(k, v)]

/-- The `if (key && content) m[key] = content` collection loops of
`extractMetadata`. -/
def objOfPairs (ps : List (Option String × Option String)) : List (String × String) :=
  ps.foldl
    (fun m p =>
      match p.1, p.2 with
      | some k, some v => if k ≠ "" ∧ v ≠ "" then objInsert m k v else m
      | _, _ => m)
    []

/-- `ContentExtractor.getMetaContent` (catches internally, hence total). -/
def getMetaContent (d : Driver) (name : String) : Option String :=
  List.lookup name d.metaContent

/-- `ContentExtractor.getLinkHref` (catches internally, hence total). -/
def getLinkHref (d : Driver) (rel : String) : Option String :=
  List.lookup rel d.linkHref

/-- `ContentExtractor.extractMetadata`: the four scalar lookups are
total; a driver failure inside the og/twitter/JSON-LD collection loops
leaves those three collections empty (partial fills of the loops are
collapsed to the whole-block granularity of the oracle). -/
def extractMetadata (d : Driver) : Metadata :=
  let base : Metadata :=
    { charset := getMetaContent d "charset"
      viewport := getMetaContent d "viewport"
      robots := getMetaContent d "robots"
      canonical := getLinkHref d "canonical"
      openGraph := [], twitterCard := [], jsonLd := [] }
  match d.metaRaw with
  | .error _ => base
  | .ok m =>
    { base with
      openGraph := objOfPairs m.og
      twitterCard := objOfPairs m.twitter
      jsonLd := m.jsonLd.filterMap id }

/-- `ContentExtractor.extractKeywords`. -/
def extractKeywords (d : Driver) : List String :=
  match getMetaContent d "keywords" with
  | some kc =>
    if kc ≠ "" then
      ((jsSplit ',' kc.data).map (fun seg => jsTrim (String.mk seg))).filter
        (fun k => decide (0 < k.length))
    else []
  | none => []

/-- `ContentExtractor.extractTextContent`: catch → `""`. -/
def extractTextContent (d : Driver) : String :=
  match d.bodyText with
  | .ok t => t
  | .error _ => ""

/-- The `\s+ → " "` global replace of `cleanText` (fuelled; the fuel
`l.length` always suffices since every step consumes input). -/
def collapseWsF : Nat → List Char → List Char
  | 0, l => l
  | _ + 1, [] => []
  | fuel + 1, c :: rest =>
    if isJsWhitespace c then ' ' :: collapseWsF fuel (rest.dropWhile isJsWhitespace)
    else c :: collapseWsF fuel rest

/-- The `\n\s*\n → "\n"` global replace of `cleanText` (fuelled; the
fuel `l.length` always suffices since every step consumes input). -/
def replaceNlRunsF : Nat → List Char → List Char
  | 0, l => l
  | _ + 1, [] => []
  | fuel + 1, c :: rest =>
    if c = '\n' then
      let run := rest.takeWhile isJsWhitespace
      if run.contains '\n' then
        '\n' :: replaceNlRunsF fuel
          ((run.reverse.takeWhile (fun x => x ≠ '\n')).reverse ++ rest.drop run.length)
      else c :: replaceNlRunsF fuel rest
    else c :: replaceNlRunsF fuel rest

/-- `ContentExtractor.cleanText`:
`text.replace(/\s+/g, " ").replace(/\n\s*\n/g, "\n").trim()`. -/
def cleanText (text : String) : String :=
  let s1 := collapseWsF text.data.length text.data
  jsTrim (String.mk (replaceNlRunsF s1.length s1))

/-- `ContentExtractor.extractHeadings`: trim, drop empties, stable sort
by level (JS `Array.sort` is stable). -/
def extractHeadings (d : Driver) : List Heading :=
  match d.headings with
  | .error _ => []
  | .ok hs =>
    ((hs.filter (fun h => jsTrim h.text ≠ "")).map
      (fun h => { level := h.level, text := jsTrim h.text, id := nonEmptyOpt h.id })).mergeSort
      (fun a b => a.level ≤ b.level)

/-- `ContentExtractor.extractParagraphs`: keep paragraphs whose trimmed
text is non-empty and whose *untrimmed* length exceeds 10. -/
def extractParagraphs (d : Driver) : List String :=
  match d.paragraphs with
  | .error _ => []
  | .ok ps =>
    (ps.filter (fun t => (jsTrim t != "") && decide (10 < t.length))).map (fun t => jsTrim t)

/-- The per-list item processing of `extractLists` (trim, drop empty). -/
def processListItems (items : List String) : List String :=
  (items.map jsTrim).filter (fun t => t != "")

/-- `ContentExtractor.extractLists`: ordered lists first, then unordered,
keeping only lists with at least one non-empty item. -/
def extractLists (d : Driver) : List ListData :=
  match d.lists with
  | .error _ => []
  | .ok r =>
    ((r.ols.map processListItems).filter (fun l => !l.isEmpty)).map
        (fun l => { kind := ListKind.ordered, items := l }) ++
      ((r.uls.map processListItems).filter (fun l => !l.isEmpty)).map
        (fun l => { kind := ListKind.unordered, items := l })

/-- `ContentExtractor.extractTables`: trim headers and cells, keep rows
with at least one cell, keep tables with at least one row. -/
def extractTables (d : Driver) : List Table :=
  match d.tables with
  | .error _ => []
  | .ok ts =>
    (ts.map (fun t =>
      { headers := t.headers.map jsTrim
        rows := (t.rows.map (fun row => row.map jsTrim)).filter (fun r => !r.isEmpty)
        caption := t.caption })).filter (fun t => !t.rows.isEmpty)

/-- One form field of `extractForms`. -/
def extractFormField (f : RawField) : FormField :=
  let ftype := jsFalsyOr f.ftype "text"
  { name := nonEmptyOpt f.name
    ftype := ftype
    label := nonEmptyOpt f.label
    placeholder := nonEmptyOpt f.placeholder
    required := f.required
    options := if ftype = "select" then some (processListItems f.options) else none }

/-- `ContentExtractor.extractForms`. -/
def extractForms (d : Driver) : List Form :=
  match d.forms with
  | .error _ => []
  | .ok fs =>
    fs.map (fun f =>
      { action := nonEmptyOpt f.action
        method := nonEmptyOpt f.method
        fields := f.fields.map extractFormField })

/-- The `<img>` loop of `extractImages`: a falsy `src` skips the image;
a `new URL(src, baseUrl)` failure throws, which aborts the loop and
makes the surrounding `catch` return the images collected so far. -/
def extractImagesGo (baseUrl : String) : List RawImg → List ImageData
  | [] => []
  | r :: rest =>
    match r.src with
    | none => extractImagesGo baseUrl rest
    | some src =>
      if src = "" then extractImagesGo baseUrl rest
      else
        match JSUrl.resolve src baseUrl with
        | none => []
        | some u =>
          { src := u.href
            alt := jsFalsyOr r.alt ""
            title := nonEmptyOpt r.title
            width := nonEmptyOpt r.width
            height := nonEmptyOpt r.height
            format := getImageFormat u.href } :: extractImagesGo baseUrl rest

/-- `ContentExtractor.extractImages`. -/
def extractImages (d : Driver) (baseUrl : String) : List ImageData :=
  match d.imgs with
  | .error _ => []
  | .ok rs => extractImagesGo baseUrl rs

/-- The `<a>` loop of `extractLinks`; in the external case the code
re-parses the href for the domain (which cannot fail there, external
classification having already parsed it — the `none` arm models the
hypothetical throw aborting the loop). -/
def extractLinksGo (baseUrl : String) : List RawLink → List LinkData
  | [] => []
  | r :: rest =>
    match r.href with
    | none => extractLinksGo baseUrl rest
    | some href =>
      if href = "" then extractLinksGo baseUrl rest
      else
        let t := getLinkType href baseUrl
        if t = LinkType.external then
          match JSUrl.parse href with
          | none => []
          | some u =>
            { href := href, text := jsTrim r.text, title := nonEmptyOpt r.title
              ltype := t, domain := some u.hostname } :: extractLinksGo baseUrl rest
        else
          { href := href, text := jsTrim r.text, title := nonEmptyOpt r.title
            ltype := t, domain := none } :: extractLinksGo baseUrl rest

/-- `ContentExtractor.extractLinks`. -/
def extractLinks (d : Driver) (baseUrl : String) : List LinkData :=
  match d.links with
  | .error _ => []
  | .ok rs => extractLinksGo baseUrl rs

/-- `ContentExtractor.extractStructuredData`: JSON-LD blocks (parse
failures skipped), then microdata items with their non-empty
`itemprop` properties (`content` attribute preferred, else text). -/
def extractStructuredData (d : Driver) : List SDItem :=
  match d.structured with
  | .error _ => []
  | .ok jm =>
    jm.1.filterMap (fun o => o.map SDItem.json) ++
      jm.2.filterMap (fun m =>
        let props := m.props.filterMap (fun p =>
          match p.name with
          | some n =>
            let c := jsFalsyOr p.content p.text
            if n ≠ "" ∧ c ≠ "" then some (n, c) else none
          | none => none)
        if props.isEmpty then none else some (SDItem.micro m.itemtype props))

/-- `ContentExtractor.extractSocialMedia`: first matching anchor's href
per platform, empty href treated as absent. -/
def extractSocialMedia (d : Driver) : SocialMediaData :=
  match d.social with
  | .error _ => {}
  | .ok s =>
    { facebook := nonEmptyOpt s.facebook
      twitter := nonEmptyOpt s.twitter
      instagram := nonEmptyOpt s.instagram
      linkedin := nonEmptyOpt s.linkedin
      youtube := nonEmptyOpt s.youtube
      tiktok := nonEmptyOpt s.tiktok }

/-! ## Content extractor: contact-info pattern matchers
(src/lib/content-extractor.ts, `extractContactInfo`)

```ts
const emailRegex = /\b[A-Za-z0-9._%+-]+@[A-Za-z0-9.-]+\.[A-Z|a-z]{2,}\b/g
const emails = bodyText.match(emailRegex) || []
contactInfo.emails = [...new Set(emails)]
// Fixed invalid regex pattern by replacing $$ with $$ and $$
const phoneRegex = /(\+?1?[-.\s]?)?$$?([0-9]{3})$$?[-.\s]?([0-9]{3})[-.\s]?([0-9]{4})/g
const phones = bodyText.match(phoneRegex) || []
contactInfo.phones = [...new Set(phones)]
const addressRegex = /\d+\s+[A-Za-z0-9\s,.-]+(?:Street|St|Avenue|Ave|Road|Rd|Boulevard|Blvd|Lane|Ln|Drive|Dr|Court|Ct|Place|Pl)\s*,?\s*[A-Za-z\s]+,?\s*[A-Z]{2}\s*\d{5}/g
const addresses = bodyText.match(addressRegex) || []
contactInfo.addresses = [...new Set(addresses)]
```

The three patterns are embedded as direct backtracking matchers with
JavaScript regex semantics (leftmost match, greedy quantifiers with
backtracking, `\b` word boundaries, `$` asserting end-of-input since no
`m` flag is set).  The `[A-Z|a-z]` class of the email pattern literally
contains `|`.  The phone pattern is embedded under the lenient reading
in which `$$?` compiles as an end-anchor followed by an optional
end-anchor (in a real JavaScript engine a quantified `$` assertion is a
SyntaxError — "nothing to repeat" — so the literal would not even
compile; under either reading no phone is ever matched). -/

/-- JS `\w`. -/
def isWordCharJs (c : Char) : Bool :=
  c.isAlphanum || c = '_'

def optWord (o : Option Char) : Bool :=
  match o with
  | some c => isWordCharJs c
  | none => false

/-- JS `\b` between an optional previous character and an optional next
character. -/
def wordBoundary (prev next : Option Char) : Bool :=
  optWord prev != optWord next

/-- The email pattern's local-part class `[A-Za-z0-9._%+-]`. -/
def isEmailLocalChar (c : Char) : Bool :=
  c.isAlphanum || c = '.' || c = '_' || c = '%' || c = '+' || c = '-'

/-- The email pattern's domain class `[A-Za-z0-9.-]`. -/
def isEmailDomainChar (c : Char) : Bool :=
  c.isAlphanum || c = '.' || c = '-'

/-- The email pattern's final class `[A-Z|a-z]` (with the literal `|`). -/
def isEmailTldChar (c : Char) : Bool :=
  c.isAlpha || c = '|'

/-- Backtracking for `[A-Z|a-z]{2,}\b` over the greedy run `t` followed
by `afterT`: try taking `m` characters, longest first, at least two,
until the trailing word boundary holds. -/
def tldBacktrack (t afterT : List Char) : Nat → Option (List Char × List Char)
  | 0 => none
  | m + 1 =>
    if m + 1 < 2 then none
    else
      let taken := t.take (m + 1)
      let rest := t.drop (m + 1) ++ afterT
      match taken.getLast? with
      | none => none
      | some lastc =>
        if isWordCharJs lastc != optWord rest.head? then some (taken, rest)
        else tldBacktrack t afterT m

/-- Backtracking for `[A-Za-z0-9.-]+\.` over the greedy domain run
`dom` followed by `r3`: give characters back, longest domain first,
until the next character is the literal `.` (position `j`, `1 ≤ j`),
then match the `{2,}`-run with its trailing boundary. -/
def domBacktrack (dom r3 : List Char) : Nat → Option (List Char × List Char × List Char)
  | 0 => none
  | j + 1 =>
    if dom.get? (j + 1) = some '.' then
      let after := dom.drop (j + 2) ++ r3
      let t := after.takeWhile isEmailTldChar
      let afterT := after.drop t.length
      match tldBacktrack t afterT t.length with
      | some td => some (dom.take (j + 1), td.1, td.2)
      | none => domBacktrack dom r3 j
    else domBacktrack dom r3 j

/-- Attempt the email pattern at the current position (`prev` is the
character before it): leading `\b`, greedy local part, `@`, backtracking
domain/dot/tld with trailing `\b`.  Returns the matched characters and
the remaining input. -/
def matchEmailAt (prev : Option Char) (s : List Char) : Option (List Char × List Char) :=
  if wordBoundary prev s.head? = false then none
  else
    let loc := s.takeWhile isEmailLocalChar
    if loc.isEmpty then none
    else
      match s.drop loc.length with
      | '@' :: r2 =>
        let dom := r2.takeWhile isEmailDomainChar
        let r3 := r2.drop dom.length
        match domBacktrack dom r3 (dom.length - 1) with
        | some dt => some (loc ++ '@' :: (dt.1 ++ '.' :: dt.2.1), dt.2.2)
        | none => none
      | _ => none

/-- Global (`g`-flag) email scan: leftmost matches, resuming after each
match, advancing one character on failure.  The fuel `length + 1`
always suffices since every step consumes at least one character. -/
def scanEmails : Nat → Option Char → List Char → List (List Char)
  | 0, _, _ => []
  | _ + 1, _, [] => []
  | fuel + 1, prev, c :: rest =>
    match matchEmailAt prev (c :: rest) with
    | some ma => ma.1 :: scanEmails fuel ma.1.getLast? ma.2
    | none => scanEmails fuel (some c) rest

/-- `bodyText.match(emailRegex) || []`. -/
def jsMatchEmails (s : String) : List String :=
  (scanEmails (s.data.length + 1) none s.data).map String.mk

/-- The phone pattern's separator class `[-.\s]`. -/
def isPhoneSep (c : Char) : Bool :=
  c = '-' || c = '.' || isJsWhitespace c

/-- Greedy `?` on one character: the consumed alternative first. -/
def optTake (p : Char → Bool) (r : List Char) : List (List Char) :=
  match r with
  | c :: rest => if p c then [rest, c :: rest] else [c :: rest]
  | [] => [[]]

/-- The remainders after the optional prefix `(\+?1?[-.\s]?)?`, in
backtracking order. -/
def phonePrefixRests (s : List Char) : List (List Char) :=
  ((optTake (fun c => c = '+') s).flatMap fun r1 =>
    (optTake (fun c => c = '1') r1).flatMap fun r2 =>
      optTake isPhoneSep r2) ++ [s]

/-- `[0-9]{n}`. -/
def takeDigits : Nat → List Char → Option (List Char × List Char)
  | 0, r => some ([], r)
  | _ + 1, [] => none
  | n + 1, c :: r =>
    if c.isDigit then (takeDigits n r).map (fun p => (c :: p.1, p.2)) else none

def firstSome (f : List Char → Option (List Char × List Char)) :
    List (List Char) → Option (List Char × List Char)
  | [] => none
  | a :: as =>
    match f a with
    | some b => some b
    | none => firstSome f as

/-- The mangled phone pattern after the optional prefix:
`$` `$?` `([0-9]{3})` `$` `$?` `[-.\s]?` `([0-9]{3})` `[-.\s]?`
`([0-9]{4})` — the first `$` (end of input, no `m` flag) must hold
right before the first digit group, so a match needs three digit
characters after the end of the input. -/
def phoneAfterPrefix (r : List Char) : Option (List Char × List Char) :=
  if r = [] then
    match takeDigits 3 r with
    | none => none
    | some ar =>
      if ar.2 = [] then
        let r3 := match ar.2 with
                  | c :: rest => if isPhoneSep c then rest else ar.2
                  | [] => ar.2
        match takeDigits 3 r3 with
        | none => none
        | some mr =>
          let r5 := match mr.2 with
                    | c :: rest => if isPhoneSep c then rest else mr.2
                    | [] => mr.2
          match takeDigits 4 r5 with
          | none => none
          | some lr => some (ar.1 ++ mr.1 ++ lr.1, lr.2)
      else none
  else none

def matchPhoneAt (s : List Char) : Option (List Char × List Char) :=
  firstSome phoneAfterPrefix (phonePrefixRests s)

def scanPhones : Nat → List Char → List (List Char)
  | 0, _ => []
  | _ + 1, [] => []
  | fuel + 1, c :: rest =>
    match matchPhoneAt (c :: rest) with
    | some ma => ma.1 :: scanPhones fuel ma.2
    | none => scanPhones fuel rest

/-- `bodyText.match(phoneRegex) || []`. -/
def jsMatchPhones (s : String) : List String :=
  (scanPhones (s.data.length + 1) s.data).map String.mk

/-- The address pattern's body class `[A-Za-z0-9\s,.-]`. -/
def isAddrBodyChar (c : Char) : Bool :=
  c.isAlphanum || isJsWhitespace c || c = ',' || c = '.' || c = '-'

/-- The address pattern's city class `[A-Za-z\s]`. -/
def isAlphaSpace (c : Char) : Bool :=
  c.isAlpha || isJsWhitespace c

/-- Try the continuation on `s.drop m`, `m` from the given bound down
to `1`. -/
def descend (s : List Char) (k : List Char → Option (List Char)) : Nat → Option (List Char)
  | 0 => none
  | m + 1 =>
    match k (s.drop (m + 1)) with
    | some r => some r
    | none => descend s k m

/-- Greedy `+` with backtracking over a character class. -/
def plusBacktrack (p : Char → Bool) (s : List Char) (k : List Char → Option (List Char)) :
    Option (List Char) :=
  descend s k (s.takeWhile p).length

/-- Greedy `*` with backtracking over a character class. -/
def starBacktrack (p : Char → Bool) (s : List Char) (k : List Char → Option (List Char)) :
    Option (List Char) :=
  match descend s k (s.takeWhile p).length with
  | some r => some r
  | none => k s

/-- Greedy `?` on one character with backtracking. -/
def optBacktrack (p : Char → Bool) (s : List Char) (k : List Char → Option (List Char)) :
    Option (List Char) :=
  match s with
  | c :: rest =>
    if p c then
      match k rest with
      | some r => some r
      | none => k s
    else k s
  | [] => k s

/-- `{n}` over a character class. -/
def exactCount (p : Char → Bool) : Nat → List Char → Option (List Char)
  | 0, r => some r
  | _ + 1, [] => none
  | n + 1, c :: r => if p c then exactCount p n r else none

/-- The street-suffix alternation, in the pattern's order. -/
def addrSuffixes : List (List Char) :=
  ["Street", "St", "Avenue", "Ave", "Road", "Rd", "Boulevard", "Blvd",
   "Lane", "Ln", "Drive", "Dr", "Court", "Ct", "Place", "Pl"].map String.data

/-- `\s*,?\s*[A-Za-z\s]+,?\s*[A-Z]{2}\s*\d{5}`, the address pattern's
tail after the street suffix. -/
def addrTail (r4 : List Char) : Option (List Char) :=
  starBacktrack isJsWhitespace r4 fun r5 =>
    optBacktrack (fun c => c = ',') r5 fun r6 =>
      starBacktrack isJsWhitespace r6 fun r7 =>
        plusBacktrack isAlphaSpace r7 fun r8 =>
          optBacktrack (fun c => c = ',') r8 fun r9 =>
            starBacktrack isJsWhitespace r9 fun r10 =>
              match exactCount Char.isUpper 2 r10 with
              | none => none
              | some r11 =>
                starBacktrack isJsWhitespace r11 fun r12 =>
                  exactCount Char.isDigit 5 r12

/-- Alternation over the street suffixes, first match (in pattern
order) whose continuation succeeds. -/
def firstSuffix (r3 : List Char) (k : List Char → Option (List Char)) :
    List (List Char) → Option (List Char)
  | [] => none
  | suf :: rest =>
    if suf.isPrefixOf r3 then
      match k (r3.drop suf.length) with
      | some r => some r
      | none => firstSuffix r3 k rest
    else firstSuffix r3 k rest

/-- Attempt the address pattern at the current position; returns the
remaining input after the match. -/
def matchAddressAt (s : List Char) : Option (List Char) :=
  plusBacktrack Char.isDigit s fun r1 =>
    plusBacktrack isJsWhitespace r1 fun r2 =>
      plusBacktrack isAddrBodyChar r2 fun r3 =>
        firstSuffix r3 addrTail addrSuffixes

def scanAddresses : Nat → List Char → List (List Char)
  | 0, _ => []
  | _ + 1, [] => []
  | fuel + 1, c :: rest =>
    match matchAddressAt (c :: rest) with
    | some after =>
      (c :: rest).take ((c :: rest).length - after.length) :: scanAddresses fuel after
    | none => scanAddresses fuel rest

/-- `bodyText.match(addressRegex) || []`. -/
def jsMatchAddresses (s : String) : List String :=
  (scanAddresses (s.data.length + 1) s.data).map String.mk

/-- `ContentExtractor.extractContactInfo` on the page's rendered body
text: the three matchers, each deduplicated via `new Set`. -/
def extractContactInfo (bodyText : String) : ContactInfo :=
  { emails := jsSetDedup (jsMatchEmails bodyText)
    phones := jsSetDedup (jsMatchPhones bodyText)
    addresses := jsSetDedup (jsMatchAddresses bodyText) }

/-! ## Content extractor: the `extractAll` aggregate
(src/lib/content-extractor.ts, `ContentExtractor.extractAll`)

The `await`s on `getCurrentUrl()`, `getTitle()` and the language
`executeScript` are **not** wrapped in any `try`, so their failures
propagate out of `extractAll`; every other field is produced by a field
extractor that catches internally. -/

def extractAll (d : Driver) (baseUrl : String) : Except String ExtractedContent := do
  let url ← d.currentUrl
  let title ← d.pageTitle
  let metadata := extractMetadata d
  let description := jsFalsyOr (List.lookup "og:description" metadata.openGraph)
      (jsFalsyOr (getMetaContent d "description") "")
  let keywords := extractKeywords d
  let author := jsFalsyOr (List.lookup "og:author" metadata.openGraph)
      (jsFalsyOr (getMetaContent d "author") "")
  let publishDate := jsFalsyOr (List.lookup "og:published_time" metadata.openGraph)
      (jsFalsyOr (getMetaContent d "article:published_time") "")
  let langRaw ← d.langScript
  let language := if langRaw ≠ "" then langRaw else "en"
  let textContent := extractTextContent d
  let cleanedText := cleanText textContent
  .ok
    { url := url
      title := title
      description := description
      keywords := keywords
      author := author
      publishDate := publishDate
      language := language
      textContent := textContent
      cleanedText := cleanedText
      headings := extractHeadings d
      paragraphs := extractParagraphs d
      lists := extractLists d
      tables := extractTables d
      forms := extractForms d
      images := extractImages d baseUrl
      links := extractLinks d baseUrl
      metadata := metadata
      structuredData := extractStructuredData d
      socialMedia := extractSocialMedia d
      contactInfo := extractContactInfo (extractTextContent d) }

/-! ## Image acquisition
(src/lib/content-extractor.ts, `ContentExtractor.downloadImages`)

```ts
async downloadImages(images, downloadDir = "./downloads") {
  const downloadedImages: ImageData[] = []
  try {
    await fs.mkdir(downloadDir, { recursive: true })
    for (const image of images) {
      try {
        const response = await fetch(image.src)
        if (response.ok) {
          const buffer = await response.buffer()
          const filename = this.generateImageFilename(image.src, image.format)
          const localPath = path.join(downloadDir, filename)
          await fs.writeFile(localPath, buffer)
          downloadedImages.push({ ...image, size: buffer.length,
                                  downloaded: true, localPath })
        }
      } catch (error) {
        downloadedImages.push({ ...image, downloaded: false })
      }
    }
  } catch (error) { }
  return downloadedImages
}
```

The per-image network/filesystem effects are an oracle `FetchOutcome`;
bytes are `List Nat`; `path.join(dir, name)` is modelled as
`dir ++ "/" ++ name`. -/

inductive FetchOutcome
  /-- `fetch` (or `response.buffer()`) rejected. -/
  | netError
  /-- An HTTP response with status-ok flag `ok` and body `body`;
  `writeOk` tells whether the subsequent `fs.writeFile` succeeds. -/
  | response (ok : Bool) (body : List Nat) (writeOk : Bool)
deriving DecidableEq, Repr

/-- The body of `downloadImages`' per-image loop: `some` is the record
pushed for this image, `none` means nothing is pushed (the
`response.ok` guard failed, so neither branch ran). -/
def downloadOne (now : Nat) (downloadDir : String) (image : ImageData)
    (o : FetchOutcome) : Option ImageData :=
  match o with
  | .netError => some { image with downloaded := some false }
  | .response ok body writeOk =>
    if ok then
      match generateImageFilename now image.src image.format with
      | none => some { image with downloaded := some false }
      | some filename =>
        if writeOk then
          some { image with
                 size := some body.length
                 downloaded := some true
                 localPath := some (downloadDir ++ "/" ++ filename) }
        else some { image with downloaded := some false }
    else none

def downloadImagesGo (now : Nat) (dir : String) :
    List (ImageData × FetchOutcome) → List ImageData
  | [] => []
  | io :: rest =>
    match downloadOne now dir io.1 io.2 with
    | some r => r :: downloadImagesGo now dir rest
    | none => downloadImagesGo now dir rest

/-- `ContentExtractor.downloadImages`; `mkdirOk = false` models a
failing `fs.mkdir`, whose exception reaches the outer catch before any
image is processed. -/
def downloadImages (now : Nat) (downloadDir : String) (mkdirOk : Bool)
    (images : List (ImageData × FetchOutcome)) : List ImageData :=
  if mkdirOk then downloadImagesGo now downloadDir images else []

/-! ## The scrape route's teardown discipline
(src/app/api/scrape/route.ts `POST`, src/unnamed/part_002
`SeleniumScraper.scrapeUrl` / `close`)

```ts
const { url, config } = await request.json()
if (!url) return NextResponse.json({ error: "URL is required" }, { status: 400 })
try { new URL(url) } catch {
  return NextResponse.json({ error: "Invalid URL format" }, { status: 400 }) }
const scraper = new SeleniumScraper(config)
try {
  const results = await scraper.scrapeUrl(url)
  return NextResponse.json(results)
} finally {
  await scraper.close()
}
// close():  if (this.driver) { await this.driver.quit(); this.driver = null }
```

`scrapeUrl` calls `initDriver()` when `this.driver` is null (outside its
own `try`), then navigates/extracts inside a `try` whose catch rethrows.
The oracle says whether `request.json()` succeeds, how `initDriver`
ends (it may throw before or after assigning `this.driver`), and
whether the navigation/extraction steps throw. -/

inductive InitOutcome
  | okDriver
  | throwNoDriver
  | throwWithDriver
deriving DecidableEq, Repr

structure ScrapeOracle where
  /-- `request.json()`: `none` = threw, `some url` = parsed body's url
  (`""` for a missing url field). -/
  jsonBody : Option String
  init : InitOutcome
  /-- The navigation / extraction steps once the driver is live. -/
  scrapeSteps : Except String Unit
deriving Repr

inductive ScrapeEvent
  /-- `this.driver.quit()` inside `close()`. -/
  | quitDriver
  /-- The HTTP response sent back, with its status. -/
  | respond (status : Nat)
deriving DecidableEq, Repr

/-- `SeleniumScraper.scrapeUrl` at the oracle: its result and whether
`this.driver` is non-null afterwards. -/
def scrapeUrlModel (o : ScrapeOracle) : Except String Unit × Bool :=
  match o.init with
  | .throwNoDriver => (.error "init failed", false)
  | .throwWithDriver => (.error "init failed", true)
  | .okDriver =>
    match o.scrapeSteps with
    | .error e => (.error e, true)
    | .ok _ => (.ok (), true)

/-- `SeleniumScraper.close`: quits exactly when a driver is live. -/
def closeModel (driverLive : Bool) : List ScrapeEvent :=
  if driverLive then [.quitDriver] else []

/-- The `POST /api/scrape` handler at the oracle: final status and the
ordered trace of quit/respond events. -/
def postScrape (o : ScrapeOracle) : Nat × List ScrapeEvent :=
  match o.jsonBody with
  | none => (500, [.respond 500])
  | some url =>
    if url = "" then (400, [.respond 400])
    else
      match JSUrl.parse url with
      | none => (400, [.respond 400])
      | some _ =>
        let r := scrapeUrlModel o
        match r.1 with
        | .ok _ => (200, closeModel r.2 ++ [.respond 200])
        | .error _ => (500, closeModel r.2 ++ [.respond 500])

/-- Whether a browser session was created while handling the request. -/
def sessionCreated (o : ScrapeOracle) : Bool :=
  match o.jsonBody with
  | none => false
  | some url =>
    if url = "" then false
    else
      match JSUrl.parse url with
      | none => false
      | some _ => o.init != InitOutcome.throwNoDriver

/-- The image record the extractor produces for `rawImgLogo` below on
base `https://x.com/dir/page`. -/
def imgLogoRecord : ImageData :=
  { src := "https://x.com/dir/logo.PNG", alt := "logo", format := some "png" }

/-- A concrete raw `<img>` element with a relative, upper-case source. -/
def rawImgLogo : RawImg :=
  { src := some "logo.PNG", alt := some "logo", title := none,
    width := none, height := none }

/-- A concrete request oracle: valid JSON and URL, successful driver
launch, failing navigation/extraction steps. -/
def oracleNavFails : ScrapeOracle :=
  { jsonBody := some "https://x.com/"
    init := InitOutcome.okDriver
    scrapeSteps := .error "nav timeout" }

/-- A page whose language `executeScript` fails while every other
driver interaction succeeds. -/
def pageLangFails : Driver :=
  { currentUrl := .ok "https://x.com/"
    pageTitle := .ok "T"
    langScript := .error "lang script failed"
    bodyText := .ok ""
    metaContent := []
    linkHref := []
    metaRaw := .ok { og := [], twitter := [], jsonLd := [] }
    headings := .ok []
    paragraphs := .ok []
    lists := .ok { ols := [], uls := [] }
    tables := .ok []
    forms := .ok []
    imgs := .ok []
    links := .ok []
    structured := .ok ([], [])
    social := .ok {} }

/-- A page where the three unguarded driver calls succeed but every
guarded extractor block fails. -/
def pageHostile : Driver :=
  { currentUrl := .ok "https://x.com/"
    pageTitle := .ok "T"
    langScript := .ok ""
    bodyText := .error "body failed"
    metaContent := []
    linkHref := []
    metaRaw := .error "meta failed"
    headings := .error "headings failed"
    paragraphs := .error "paragraphs failed"
    lists := .error "lists failed"
    tables := .error "tables failed"
    forms := .error "forms failed"
    imgs := .error "imgs failed"
    links := .error "links failed"
    structured := .error "structured failed"
    social := .error "social failed" }

/-! ## Theorems -/

lemma nextProxyRun_outputs (ps : List ProxyConfig) (hps : ps.length ≠ 0) :
    ∀ (k i : Nat), i < ps.length →
      (nextProxyRun ps i k).1 =
        (List.range k).map (fun j => ps.get? ((i + j) % ps.length)) := by
  intro k
  induction k with
  | zero => intro i _; simp [nextProxyRun]
  | succ k ih =>
    intro i hi
    have hstep : getNextProxy ps i = (ps.get? i, (i + 1) % ps.length) := by
      simp [getNextProxy, hps]
    have hi' : (i + 1) % ps.length < ps.length :=
      Nat.mod_lt _ (Nat.pos_of_ne_zero hps)
    simp only [nextProxyRun, hstep]
    rw [ih ((i + 1) % ps.length) hi', List.range_succ_eq_map]
    simp only [List.map_cons, List.map_map]
    congr 1
    · simp [Nat.mod_eq_of_lt hi]
    apply List.map_congr_left
    intro j _
    simp only [Function.comp_apply]
    rw [Nat.mod_add_mod]
    congr 2
    omega

lemma countP_mod_range (n i : Nat) (hn : 0 < n) (hi : i < n) (k : Nat) :
    (List.range k).countP (fun j => j % n == i) =
      k / n + if i < k % n then 1 else 0 := by
  induction k with
  | zero => simp [Nat.zero_div]
  | succ k ih =>
    rw [List.range_succ, List.countP_append, ih]
    have hr : k % n < n := Nat.mod_lt _ hn
    have hk : n * (k / n) + k % n = k := Nat.div_add_mod k n
    have hsingle : List.countP (fun j => j % n == i) [k] =
        if k % n = i then 1 else 0 := by
      simp only [List.countP_cons, List.countP_nil, Nat.zero_add]
      by_cases h : k % n = i <;> simp [h]
    rw [hsingle]
    rcases Nat.lt_or_ge (k % n + 1) n with hcase | hcase
    · have hdiv : (k + 1) / n = k / n := by
        conv_lhs => rw [← Nat.div_add_mod k n]
        rw [Nat.add_assoc, Nat.mul_add_div hn, Nat.div_eq_of_lt hcase, Nat.add_zero]
      have hmod : (k + 1) % n = k % n + 1 := by
        conv_lhs => rw [← Nat.div_add_mod k n]
        rw [Nat.add_assoc, Nat.mul_add_mod, Nat.mod_eq_of_lt hcase]
      rw [hdiv, hmod]
      by_cases h1 : k % n = i
      · simp [h1]
      · by_cases h2 : i < k % n
        · have h3 : i < k % n + 1 := by omega
          simp [h1, h2, h3]
        · have h3 : ¬ i < k % n + 1 := by omega
          simp [h1, h2, h3]
    · have he : k % n + 1 = n := by omega
      have hdiv : (k + 1) / n = k / n + 1 := by
        conv_lhs => rw [← Nat.div_add_mod k n]
        rw [Nat.add_assoc, he, Nat.mul_add_div hn, Nat.div_self hn]
      have hmod : (k + 1) % n = 0 := by
        conv_lhs => rw [← Nat.div_add_mod k n]
        rw [Nat.add_assoc, he, Nat.mul_add_mod, Nat.mod_self]
      rw [hdiv, hmod]
      by_cases h1 : k % n = i
      · simp [h1]
      · have h2 : i < k % n := by omega
        have h0 : ¬ i < 0 := Nat.not_lt_zero i
        simp [h1, h2, h0]

lemma ceil_div_eq (n k : Nat) (hn : 0 < n) :
    (k + n - 1) / n = k / n + if k % n = 0 then 0 else 1 := by
  have hr : k % n < n := Nat.mod_lt _ hn
  have hk : n * (k / n) + k % n = k := Nat.div_add_mod k n
  by_cases h : k % n = 0
  · have hkk : k + n - 1 = n * (k / n) + (n - 1) := by omega
    have hlt : n - 1 < n := by omega
    rw [hkk, Nat.mul_add_div hn, Nat.div_eq_of_lt hlt]
    simp [h]
  · have hms : n * (k / n + 1) = n * (k / n) + n := Nat.mul_succ n (k / n)
    have hkk : k + n - 1 = n * (k / n + 1) + (k % n - 1) := by rw [hms]; omega
    have hlt : k % n - 1 < n := by omega
    rw [hkk, Nat.mul_add_div hn, Nat.div_eq_of_lt hlt]
    simp [h]

/-- **C5.** Round-robin fairness of `getNextProxy`: over `k` calls on a
non-empty list of `n` proxies starting from index `0`, the `j`-th call
yields the proxy at position `j % n` (so proxies are visited cyclically
in their original relative order with wraparound), and each position is
yielded either `⌊k/n⌋` times or `⌈k/n⌉ = (k+n-1)/n` times. -/
theorem getNextProxy_round_robin (ps : List ProxyConfig) (h : ps ≠ []) (k : Nat) :
    (nextProxyRun ps 0 k).1 =
        (List.range k).map (fun j => ps.get? (j % ps.length)) ∧
    ∀ i, i < ps.length →
      (List.range k).countP (fun j => j % ps.length == i) = k / ps.length ∨
      (List.range k).countP (fun j => j % ps.length == i) =
        (k + ps.length - 1) / ps.length := by
  have hlen : ps.length ≠ 0 := by
    intro h0; exact h (List.length_eq_zero.mp h0)
  have hpos : 0 < ps.length := Nat.pos_of_ne_zero hlen
  constructor
  · have := nextProxyRun_outputs ps hlen k 0 hpos
    simpa using this
  · intro i hi
    rw [countP_mod_range ps.length i hpos hi k, ceil_div_eq ps.length k hpos]
    by_cases hw : i < k % ps.length
    · right
      have : k % ps.length ≠ 0 := by omega
      simp [hw, this]
    · left; simp [hw]

/-- Witness for C5 at a concrete input: three proxies, four calls. -/
theorem getNextProxy_round_robin_witness :
    (nextProxyRun
        [⟨"a", 1, none, none, "http"⟩, ⟨"b", 2, none, none, "http"⟩,
         ⟨"c", 3, none, none, "http"⟩] 0 4).1 =
      (List.range 4).map (fun j =>
        ([⟨"a", 1, none, none, "http"⟩, ⟨"b", 2, none, none, "http"⟩,
          ⟨"c", 3, none, none, "http"⟩] : List ProxyConfig).get? (j % 3)) ∧
    ∀ i, i < ([⟨"a", 1, none, none, "http"⟩, ⟨"b", 2, none, none, "http"⟩,
          ⟨"c", 3, none, none, "http"⟩] : List ProxyConfig).length →
      (List.range 4).countP (fun j => j % 3 == i) = 4 / 3 ∨
      (List.range 4).countP (fun j => j % 3 == i) = (4 + 3 - 1) / 3 := by
  have := getNextProxy_round_robin
    [⟨"a", 1, none, none, "http"⟩, ⟨"b", 2, none, none, "http"⟩,
     ⟨"c", 3, none, none, "http"⟩] (by decide) 4
  simpa using this

/-- **C10.** On an empty proxy list, `getNextProxy` returns `null` and
leaves the rotation index unchanged, and `getRandomProxy` returns `null`
(whatever the random draw), instead of raising. -/
theorem proxy_empty_list_safe :
    ∀ i rand : Nat, getNextProxy [] i = (none, i) ∧ getRandomProxy [] rand = none := by
  intro i rand
  constructor <;> rfl

lemma count_filter_eq (p : Int → Bool) (a : Int) (l : List Int) :
    (l.filter p).count a = if p a then l.count a else 0 := by
  by_cases h : p a
  · rw [List.count_filter h, if_pos h]
  · rw [if_neg h]
    rw [List.count_eq_zero]
    intro hmem
    exact h (List.of_mem_filter hmem)


lemma rateLimit_invariant (maxRequests : Nat) (W : Int) (hW : 0 < W) :
    ∀ (ts S P : List Int) (last : Int),
      (∀ t ∈ ts, last ≤ t) → ts.Chain' (· ≤ ·) →
      (∀ p ∈ P, p ≤ last) →
      (∀ x : Int, (P.filter (fun p => decide (last - W < p))).count x ≤ S.count x) →
      (∀ T : Int, (P.filter (inWindow T W)).length ≤ maxRequests) →
      ∀ T : Int,
        ((P ++ allowedTimes (rateLimitRun maxRequests W S ts).2).filter
            (inWindow T W)).length ≤ maxRequests := by
  intro ts
  induction ts with
  | nil =>
    intro S P last _ _ _ _ hPw T
    simpa [rateLimitRun, allowedTimes] using hPw T
  | cons t ts ih =>
    intro S P last hts hchain hP h2 hPw T
    have hlast_t : last ≤ t := hts t (List.mem_cons_self t ts)
    have hts' : ∀ x ∈ ts, t ≤ x := by
      have hpair : (t :: ts).Pairwise (· ≤ ·) := List.chain'_iff_pairwise.mp hchain
      exact (List.pairwise_cons.mp hpair).1
    have hchain' : ts.Chain' (· ≤ ·) := hchain.tail
    by_cases hdeny : maxRequests ≤ (pruneRequests W t S).length
    · -- deny branch: state and allowed log unchanged for this call
      have hstep : checkRateLimit maxRequests W t S = (false, S) := by
        simp [checkRateLimit, hdeny]
      simp only [rateLimitRun, hstep, allowedTimes, List.filter_cons]
      simp only [show ((t, false) : Int × Bool).2 = false from rfl, Bool.false_eq_true,
        if_false]
      refine ih S P t hts' hchain' (fun p hp => le_trans (hP p hp) hlast_t) ?_ hPw T
      intro x
      refine le_trans ?_ (h2 x)
      rw [count_filter_eq, count_filter_eq]
      by_cases hx : decide (t - W < x) = true
      · have hx' : decide (last - W < x) = true := by
          simp only [decide_eq_true_eq] at hx ⊢; omega
        rw [if_pos hx, if_pos hx']
      · rw [if_neg hx]
        exact Nat.zero_le _
    · -- allow branch: `t` is appended to both the state and the allowed log
      have hstep : checkRateLimit maxRequests W t S =
          (true, pruneRequests W t S ++ [t]) := by
        simp [checkRateLimit, hdeny]
      have hvalid : (pruneRequests W t S).length < maxRequests := by omega
      simp only [rateLimitRun, hstep, allowedTimes, List.filter_cons]
      simp only [show ((t, true) : Int × Bool).2 = true from rfl, if_true, List.map_cons]
      -- reassociate `P ++ t :: A` as `(P ++ [t]) ++ A`
      have hperm : ∀ A : List Int, (P ++ t :: A).Perm ((P ++ [t]) ++ A) := by
        intro A
        have h1 : (P ++ t :: A).Perm (t :: (P ++ A)) := List.perm_middle
        have h2p : ((P ++ [t]) ++ A).Perm (t :: (P ++ A)) := by
          have : (P ++ [t]) ++ A = P ++ t :: A → True := fun _ => trivial
          have happ : (P ++ [t]) ++ A = P ++ ([t] ++ A) := by rw [List.append_assoc]
          rw [happ]
          exact List.perm_middle
        exact h1.trans h2p.symm
      set A := allowedTimes
        (rateLimitRun maxRequests W (pruneRequests W t S ++ [t]) ts).2 with hA
      have hlen : ((P ++ t :: A).filter (inWindow T W)).length =
          (((P ++ [t]) ++ A).filter (inWindow T W)).length :=
        ((hperm A).filter _).length_eq
      rw [show (List.map (fun e => e.1) (List.filter (fun e => e.2)
            ((rateLimitRun maxRequests W (pruneRequests W t S ++ [t]) ts).2))) = A from rfl]
      rw [hlen]
      refine ih (pruneRequests W t S ++ [t]) (P ++ [t]) t hts' hchain' ?_ ?_ ?_ T
      · intro p hp
        rcases List.mem_append.mp hp with h | h
        · exact le_trans (hP p h) hlast_t
        · simp only [List.mem_singleton] at h; omega
      · intro x
        rw [List.filter_append, List.count_append, List.count_append]
        have hsingle : List.filter (fun p => decide (t - W < p)) [t] = [t] := by
          have hd : decide (t - W < t) = true := by
            simp only [decide_eq_true_eq]; omega
          simp [List.filter_singleton, hd, hW]
        rw [hsingle]
        have hmain : (P.filter (fun p => decide (t - W < p))).count x ≤
            (pruneRequests W t S).count x := by
          rw [count_filter_eq]
          unfold pruneRequests
          rw [count_filter_eq]
          by_cases hx : decide (t - W < x) = true
          · have hx2 : decide (t - x < W) = true := by
              simp only [decide_eq_true_eq] at hx ⊢; omega
            rw [if_pos hx, if_pos hx2]
            have := h2 x
            rw [count_filter_eq] at this
            have hx3 : decide (last - W < x) = true := by
              simp only [decide_eq_true_eq] at hx ⊢; omega
            rwa [if_pos hx3] at this
          · rw [if_neg hx]
            exact Nat.zero_le _
        omega
      · intro T'
        rw [List.filter_append, List.length_append]
        by_cases hwin : inWindow T' W t = true
        · have hsingle : List.filter (inWindow T' W) [t] = [t] := by
            simp [List.filter, hwin]
          rw [hsingle]
          -- in-window past allowed times inject into the pruned state
          have hsub : (P.filter (inWindow T' W)).Subperm (pruneRequests W t S) := by
            rw [List.subperm_ext_iff]
            intro a ha
            have hwina : inWindow T' W a = true := List.of_mem_filter ha
            have hbounds : T' ≤ a ∧ a < T' + W := by
              simpa [inWindow] using hwina
            have hwint : T' ≤ t ∧ t < T' + W := by
              simpa [inWindow] using hwin
            rw [count_filter_eq, if_pos hwina]
            unfold pruneRequests
            rw [count_filter_eq]
            have hx2 : decide (t - a < W) = true := by
              simp only [decide_eq_true_eq]; omega
            rw [if_pos hx2]
            have := h2 a
            rw [count_filter_eq] at this
            have hx3 : decide (last - W < a) = true := by
              simp only [decide_eq_true_eq]; omega
            rwa [if_pos hx3] at this
          have := hsub.length_le
          simp only [List.length_singleton]
          omega
        · have hsingle : List.filter (inWindow T' W) [t] = [] := by
            simp [List.filter, hwin]
          rw [hsingle]
          simpa using hPw T'

/-- **C4.** Sliding-window rate limiting: starting from an empty stored
list, for every monotone sequence of call times and every window
position `T`, at most `maxRequests` calls are allowed (return `true`)
whose times lie in the rolling interval `[T, T + timeWindow)`.  Each
call prunes timestamps older than the window, denies with the stored
state unchanged when the surviving count is at least `maxRequests`, and
otherwise appends the current time and allows (this is `checkRateLimit`
itself, iterated by `rateLimitRun`). -/
theorem checkRateLimit_rolling_window (maxRequests : Nat) (W : Int) (hW : 0 < W)
    (ts : List Int) (hmono : ts.Chain' (· ≤ ·)) (T : Int) :
    ((allowedTimes (rateLimitRun maxRequests W [] ts).2).filter
        (inWindow T W)).length ≤ maxRequests := by
  cases ts with
  | nil => simp [rateLimitRun, allowedTimes]
  | cons t ts =>
    have hts : ∀ x ∈ t :: ts, t ≤ x := by
      intro x hx
      rcases List.mem_cons.mp hx with h | h
      · omega
      · have hpair : (t :: ts).Pairwise (· ≤ ·) := List.chain'_iff_pairwise.mp hmono
        exact (List.pairwise_cons.mp hpair).1 x h
    have := rateLimit_invariant maxRequests W hW (t :: ts) [] [] t hts hmono
      (by intro p hp; simp at hp) (by intro x; simp) (by intro T'; simp) T
    simpa using this

/-- Witness for C4 at a concrete input: limit 2 per window 10, five
calls at times 0,1,2,3,11; the window starting at 0 admits 2 allowed calls. -/
theorem checkRateLimit_rolling_window_witness :
    ((allowedTimes (rateLimitRun 2 10 [] [0, 1, 2, 3, 11]).2).filter
        (inWindow 0 10)).length ≤ 2 :=
  checkRateLimit_rolling_window 2 10 (by decide) [0, 1, 2, 3, 11]
    (by norm_num [List.chain'_cons]) 0

/-- Counterexample to C1 as stated: the relative href `"about.html"`
(which starts with none of `mailto:`, `tel:`, `#`, `/`, and does not
parse as an absolute URL) is classified `internal` by the code — the
`catch` branch of `getLinkType` — while the claim's case list, which
reaches "external otherwise", classifies it `external`. -/
theorem classifyLink_claim_counterexample :
    classifyLink "about.html" "https://x.com/" = (LinkType.internal, none) ∧
    classifySpecClaim "about.html" "https://x.com/" = (LinkType.external, none) ∧
    LinkType.internal ≠ LinkType.external :=
  ⟨by decide, by decide, by decide⟩

/-- **C1 (amended).** Link classification follows the claim's case list
with two corrections: the file-extension rule precedes the equal-
hostname rule, and an unparsable href falls back to `internal`.  The
claim's two scenarios hold: `/about` on base `https://x.com/` is
internal with domain absent, and `https://y.com/z.pdf` is a file link. -/
theorem classifyLink_spec :
    (∀ href baseUrl, classifyLink href baseUrl = classifySpecAmended href baseUrl) ∧
    classifyLink "/about" "https://x.com/" = (LinkType.internal, none) ∧
    classifyLink "https://y.com/z.pdf" "https://x.com/" = (LinkType.file, none) := by
  refine ⟨?_, by decide, by decide⟩
  intro href baseUrl
  unfold classifyLink classifySpecAmended getLinkType
  by_cases h1 : jsStartsWith href "mailto:"
  · simp [h1]
  · by_cases h2 : jsStartsWith href "tel:"
    · simp [h1, h2]
    · by_cases h3 : (jsStartsWith href "#" || jsStartsWith href "/") = true
      · simp [h1, h2, h3]
      · simp only [h1, h2, h3, Bool.false_eq_true, if_false]
        cases hu : JSUrl.parse href with
        | none => simp
        | some u =>
          cases hb : JSUrl.parse baseUrl with
          | none => simp
          | some b =>
            by_cases h4 :
                fileExtensions.any (fun ext => jsEndsWith (jsToLower u.pathname) ext)
            · simp [h4]
            · by_cases h5 : u.hostname = b.hostname
              · simp [h4, h5]
              · simp [h4, h5]

/-- Counterexample to C9 as stated: for the wholly ambiguous URL
`https://x.com/` (path `/`, empty last segment) and no detected format,
the code returns the constant name `"image"` — independent of the
timestamp — not a timestamp-qualified default name: the `.pop()` result
is replaced by `"image"` *before* the final fallback consults the
`Date.now()` default, so that fallback is unreachable. -/
theorem generateImageFilename_counterexample :
    generateImageFilename 0 "https://x.com/" none = some "image" ∧
    generateImageFilename 123456 "https://x.com/" none = some "image" ∧
    ("image" : String) ≠ "image_0.jpg" :=
  ⟨by decide, by decide, by decide⟩

lemma baseFilename_ne_empty (seg : List Char) :
    (if seg.isEmpty then "image" else String.mk seg) ≠ ("" : String) := by
  cases seg with
  | nil => decide
  | cons c cs =>
    simp only [List.isEmpty_cons, if_false, Bool.false_eq_true]
    intro h
    have : (c :: cs : List Char) = [] := by
      have h2 := congrArg String.data h
      simp at h2
    exact List.cons_ne_nil c cs this

/-- **C9 (amended).** The download filename is the last path segment of
the URL; when that segment is empty the constant `"image"` is used; when
the chosen name has no `.` and a (non-empty) format was detected, the
format is appended as the extension.  The timestamp-qualified default of
the claim is dead code: the result never depends on `Date.now()`
(`filenameSpecAmended` takes no timestamp). -/
theorem generateImageFilename_spec :
    ∀ (now : Nat) (url : String) (format : Option String),
      generateImageFilename now url format = filenameSpecAmended url format := by
  intro now url format
  unfold generateImageFilename filenameSpecAmended
  cases hp : JSUrl.parse url with
  | none => rfl
  | some u =>
    simp only [Option.map_some']
    congr 1
    dsimp only
    generalize (jsSplit '/' u.pathname.data).getLastD [] = seg
    have hbase := baseFilename_ne_empty seg
    generalize hb : (if seg.isEmpty then "image" else String.mk seg) = base at hbase ⊢
    cases format with
    | none =>
      cases hc : base.data.contains '.' <;> simp [hbase, hc]
    | some f =>
      by_cases hf : f = ""
      · cases hc : base.data.contains '.' <;> simp [hf, hbase, hc]
      · cases hc : base.data.contains '.' <;> simp [hf, hbase, hc]

/-- **C6.** Evaluation of `extractContactInfo` at the claim's scenario
text: the email matcher finds `a@b.com` (deduplicated), but the phone
list is empty — the mangled pattern `$$?` places an end-of-input
assertion before the first digit group, so no phone number can ever be
matched (and, compiled strictly, the quantified `$` is a regex
SyntaxError), contradicting the claim that `phones` contains a
normalized form of `(212) 555-1234`. -/
theorem extractContactInfo_scenario :
    extractContactInfo "Contact us at a@b.com or (212) 555-1234" =
      { emails := ["a@b.com"], phones := [], addresses := [] } := by
  decide

/-- Counterexample to C2 as stated: the language field's
`executeScript` call is not inside any `try`, so its failure escapes
`extractAll` — the engine does raise. -/
theorem extractAll_raises_counterexample :
    extractAll pageLangFails "https://x.com/" = .error "lang script failed" := by
  rfl

/-- **C2 (amended).** `extractAll` returns a complete
`ExtractedContent` — every guarded field extractor degrading to an
empty/absent value on failure — *provided* its three unguarded driver
calls (`getCurrentUrl`, `getTitle`, and the language script) succeed;
the failure of any of those three propagates out of `extractAll`. -/
theorem extractAll_isolation (d : Driver) (baseUrl u t l : String)
    (hu : d.currentUrl = .ok u) (ht : d.pageTitle = .ok t)
    (hl : d.langScript = .ok l) :
    extractAll d baseUrl = .ok
      { url := u
        title := t
        description := jsFalsyOr (List.lookup "og:description" (extractMetadata d).openGraph)
            (jsFalsyOr (getMetaContent d "description") "")
        keywords := extractKeywords d
        author := jsFalsyOr (List.lookup "og:author" (extractMetadata d).openGraph)
            (jsFalsyOr (getMetaContent d "author") "")
        publishDate := jsFalsyOr (List.lookup "og:published_time" (extractMetadata d).openGraph)
            (jsFalsyOr (getMetaContent d "article:published_time") "")
        language := if l ≠ "" then l else "en"
        textContent := extractTextContent d
        cleanedText := cleanText (extractTextContent d)
        headings := extractHeadings d
        paragraphs := extractParagraphs d
        lists := extractLists d
        tables := extractTables d
        forms := extractForms d
        images := extractImages d baseUrl
        links := extractLinks d baseUrl
        metadata := extractMetadata d
        structuredData := extractStructuredData d
        socialMedia := extractSocialMedia d
        contactInfo := extractContactInfo (extractTextContent d) } := by
  unfold extractAll
  rw [hu, ht, hl]
  rfl

/-- Witness for C2 (amended) at the all-hostile page: every guarded
extractor fails, yet extraction succeeds with degraded fields. -/
theorem extractAll_isolation_witness :
    extractAll pageHostile "https://x.com/" = .ok
      { url := "https://x.com/"
        title := "T"
        description := ""
        keywords := []
        author := ""
        publishDate := ""
        language := "en"
        textContent := ""
        cleanedText := ""
        headings := []
        paragraphs := []
        lists := []
        tables := []
        forms := []
        images := []
        links := []
        metadata := { charset := none, viewport := none, robots := none,
                      canonical := none, openGraph := [], twitterCard := [],
                      jsonLd := [] }
        structuredData := []
        socialMedia := {}
        contactInfo := { emails := [], phones := [], addresses := [] } } := by
  have h := extractAll_isolation pageHostile "https://x.com/" "https://x.com/" "T" ""
    rfl rfl rfl
  rw [h]
  rfl

/-- Counterexample to C3 as stated: a single input image whose fetch
returns a non-2xx response (`ok = false`) produces *no* output record —
the `if (response.ok)` guard skips the push and no exception reaches
the catch — so the batch result has zero records for one input, rather
than a `downloaded = false` record. -/
theorem downloadImages_counterexample :
    downloadImages 0 "./downloads" true
        [({ src := "https://x.com/a.png", alt := "" },
          FetchOutcome.response false [] true)] = [] ∧
    ([({ src := "https://x.com/a.png", alt := "" },
        FetchOutcome.response false [] true)] :
      List (ImageData × FetchOutcome)).length = 1 :=
  ⟨rfl, rfl⟩

/-- **C3 (amended).** With the destination directory created, the batch
result is the per-image `filterMap` of the loop body — no image's
failure aborts its siblings, and order is preserved.  Per image: a
thrown failure (network, buffer, URL or write error) yields a record
equal to the input with `downloaded = false` and all other fields
unchanged; a fetched-and-written image yields the input record with
`size` = byte length of the body, `downloaded = true` and `localPath`
set; an image is dropped from the output exactly when its response had
`ok = false` (non-2xx). -/
theorem downloadImages_spec (now : Nat) (dir : String)
    (images : List (ImageData × FetchOutcome)) :
    (downloadImages now dir true images =
      images.filterMap (fun io => downloadOne now dir io.1 io.2)) ∧
    (∀ img o r, downloadOne now dir img o = some r →
      (∃ body filename, o = FetchOutcome.response true body true ∧
          generateImageFilename now img.src img.format = some filename ∧
          r = { img with
                size := some body.length
                downloaded := some true
                localPath := some (dir ++ "/" ++ filename) }) ∨
      r = { img with downloaded := some false }) ∧
    (∀ img o, downloadOne now dir img o = none →
      ∃ body writeOk, o = FetchOutcome.response false body writeOk) := by
  refine ⟨?_, ?_, ?_⟩
  · show downloadImagesGo now dir images =
      images.filterMap (fun io => downloadOne now dir io.1 io.2)
    induction images with
    | nil => rfl
    | cons io rest ih =>
      simp only [downloadImagesGo, List.filterMap_cons]
      cases h : downloadOne now dir io.1 io.2 with
      | none => simpa [h] using ih
      | some r => simpa [h] using ih
  · intro img o r h
    cases o with
    | netError =>
      right
      simpa [downloadOne] using h.symm
    | response ok body writeOk =>
      cases ok with
      | false => simp [downloadOne] at h
      | true =>
        simp only [downloadOne, if_true] at h
        cases hg : generateImageFilename now img.src img.format with
        | none =>
          right
          rw [hg] at h
          simpa using h.symm
        | some filename =>
          rw [hg] at h
          cases writeOk with
          | false =>
            right
            simpa using h.symm
          | true =>
            left
            refine ⟨body, filename, ?_, ?_, ?_⟩
            · rfl
            · rfl
            · simpa using h.symm
  · intro img o h
    cases o with
    | netError => simp [downloadOne] at h
    | response ok body writeOk =>
      cases ok with
      | true =>
        simp only [downloadOne, if_true] at h
        cases hg : generateImageFilename now img.src img.format with
        | none => rw [hg] at h; simp at h
        | some filename =>
          rw [hg] at h
          cases writeOk <;> simp at h
      | false => exact ⟨body, writeOk, rfl⟩

/-- Witness for C3 (amended): the skip case discharged at a concrete
non-2xx outcome. -/
theorem downloadImages_spec_witness :
    ∃ body writeOk,
      FetchOutcome.response false [] true = FetchOutcome.response false body writeOk :=
  (downloadImages_spec 0 "dl" []).2.2 { src := "s", alt := "" }
    (FetchOutcome.response false [] true) rfl

/-- **C7.** On every oracle outcome of a scrape request, the driver is
quit exactly once when a session was created (and never otherwise), and
the quit event precedes the response on the trace — success, extraction
failure and navigation failure included; when no session exists
(validation failure, JSON failure, or `initDriver` failing before
assigning the driver) nothing is quit. -/
theorem scrape_teardown (o : ScrapeOracle) :
    ((postScrape o).2.count ScrapeEvent.quitDriver =
      if sessionCreated o then 1 else 0) ∧
    (sessionCreated o = true →
      (postScrape o).2 = [ScrapeEvent.quitDriver, ScrapeEvent.respond (postScrape o).1]) := by
  unfold postScrape sessionCreated scrapeUrlModel closeModel
  cases hj : o.jsonBody with
  | none => simp [List.count_cons]
  | some url =>
    by_cases hurl : url = ""
    · simp [hurl, List.count_cons]
    · cases hp : JSUrl.parse url with
      | none => simp [hurl, hp, List.count_cons]
      | some u =>
        cases hi : o.init with
        | okDriver =>
          cases hs : o.scrapeSteps with
          | error e => simp [hurl, hp, hi, hs, List.count_cons]
          | ok v => simp [hurl, hp, hi, hs, List.count_cons]
        | throwNoDriver => simp [hurl, hp, hi, List.count_cons]
        | throwWithDriver => simp [hurl, hp, hi, List.count_cons]

/-- Witness for C7 at a concrete oracle: a navigation failure after a
successful driver launch still tears the session down before the error
response. -/
theorem scrape_teardown_witness :
    (postScrape oracleNavFails).2 =
      [ScrapeEvent.quitDriver, ScrapeEvent.respond (postScrape oracleNavFails).1] :=
  (scrape_teardown oracleNavFails).2 rfl

/-! ### C8: `jsSplit` / trailing extension support -/

lemma jsSplit_ne_nil (c : Char) (l : List Char) : jsSplit c l ≠ [] := by
  cases l with
  | nil => simp [jsSplit]
  | cons x xs =>
    simp only [jsSplit]
    by_cases hx : x = c
    · simp [hx]
    · simp only [hx, if_false]
      cases jsSplit c xs <;> simp

lemma jsSplit_length_gt1_iff (c : Char) (l : List Char) :
    1 < (jsSplit c l).length ↔ c ∈ l := by
  induction l with
  | nil => simp [jsSplit]
  | cons x xs ih =>
    simp only [jsSplit]
    by_cases hx : x = c
    · rw [if_pos hx]
      have hpos : 0 < (jsSplit c xs).length :=
        List.length_pos.mpr (jsSplit_ne_nil c xs)
      simp only [List.length_cons, List.mem_cons]
      constructor
      · intro _; exact Or.inl hx.symm
      · intro _; omega
    · rw [if_neg hx]
      obtain ⟨hd, tl, h⟩ : ∃ hd tl, jsSplit c xs = hd :: tl := by
        cases hh : jsSplit c xs with
        | nil => exact absurd hh (jsSplit_ne_nil c xs)
        | cons a b => exact ⟨a, b, rfl⟩
      rw [h]
      rw [h] at ih
      dsimp only
      simp only [List.length_cons] at ih ⊢
      have hcx : ¬ c = x := fun h' => hx h'.symm
      simp only [List.mem_cons, hcx, false_or]
      exact ih

lemma jsSplit_getLastD (c : Char) (l : List Char) :
    (jsSplit c l).getLastD [] =
      (l.reverse.takeWhile (fun y => y ≠ c)).reverse := by
  induction l with
  | nil => simp [jsSplit]
  | cons x xs ih =>
    simp only [jsSplit]
    by_cases hx : x = c
    · rw [if_pos hx, List.getLastD_cons, ih, List.reverse_cons, List.takeWhile_append]
      have hstop : List.takeWhile (fun y => decide (y ≠ c)) [x] = [] := by
        simp [List.takeWhile_cons, hx]
      split
      · next hlen =>
        have heq := (List.takeWhile_prefix
          (l := xs.reverse) (fun y => decide (y ≠ c))).eq_of_length hlen
        rw [hstop, List.append_nil, heq]
      · rfl
    · rw [if_neg hx]
      obtain ⟨hd, tl, h⟩ : ∃ hd tl, jsSplit c xs = hd :: tl := by
        cases hh : jsSplit c xs with
        | nil => exact absurd hh (jsSplit_ne_nil c xs)
        | cons a b => exact ⟨a, b, rfl⟩
      rw [h]
      rw [h] at ih
      dsimp only
      rw [List.reverse_cons, List.takeWhile_append]
      cases tl with
      | nil =>
        have hnotmem : c ∉ xs := by
          intro hmem
          have h1 := (jsSplit_length_gt1_iff c xs).mpr hmem
          rw [h] at h1
          simp at h1
        have hall : ∀ y ∈ xs.reverse, (fun y => decide (y ≠ c)) y = true := by
          intro y hy
          simp only [decide_eq_true_eq]
          intro hyc
          exact hnotmem (hyc ▸ List.mem_reverse.mp hy)
        have hfull : List.takeWhile (fun y => decide (y ≠ c)) xs.reverse = xs.reverse :=
          List.takeWhile_eq_self_iff.mpr hall
        have hd_eq : hd = xs := by
          have h2 := ih
          simp only [List.getLastD_cons] at h2
          rw [hfull, List.reverse_reverse] at h2
          simpa using h2
        have hlen : (List.takeWhile (fun y => decide (y ≠ c)) xs.reverse).length =
            xs.reverse.length := by rw [hfull]
        rw [if_pos hlen]
        have hxone : List.takeWhile (fun y => decide (y ≠ c)) [x] = [x] := by
          simp [List.takeWhile_cons, hx]
        rw [hxone]
        simp [hd_eq]
      | cons t0 ts =>
        have hmem : c ∈ xs := by
          refine (jsSplit_length_gt1_iff c xs).mp ?_
          rw [h]
          simp only [List.length_cons]
          omega
        have hstopmem : ¬ (List.takeWhile (fun y => decide (y ≠ c)) xs.reverse).length =
            xs.reverse.length := by
          intro hlen
          have heq := (List.takeWhile_prefix
            (l := xs.reverse) (fun y => decide (y ≠ c))).eq_of_length hlen
          have hall := List.takeWhile_eq_self_iff.mp heq
          have h2 := hall c (List.mem_reverse.mpr hmem)
          simp at h2
        rw [if_neg hstopmem, ← ih]
        simp only [List.getLastD_cons]

/-- No image-format name contains a colon. -/
lemma no_colon_in_formats (t : String) (h : ':' ∈ t.data) : t ∉ imageFormats := by
  intro hmem
  simp only [imageFormats, List.mem_cons, List.not_mem_nil, or_false] at hmem
  rcases hmem with h1|h1|h1|h1|h1|h1|h1|h1 <;> subst h1 <;> revert h <;> decide

/-- Every serialized URL contains a colon (after its scheme). -/
lemma href_colon (u : JSUrl) : ':' ∈ u.href.data := by
  unfold JSUrl.href
  simp only [String.data_append]
  refine List.mem_append.mpr (Or.inl ?_)
  refine List.mem_append.mpr (Or.inl ?_)
  refine List.mem_append.mpr (Or.inl ?_)
  refine List.mem_append.mpr (Or.inl ?_)
  refine List.mem_append.mpr (Or.inr ?_)
  decide

/-- `getImageFormat` agrees with the claim's trailing-extension reading
on every string containing a colon (every serialized URL does): a
format is present iff the lowercased characters after the last `.` form
a member of the allowlist, and then equals them. -/
lemma getImageFormat_iff (s : String) (hcolon : ':' ∈ s.data) (f : String) :
    getImageFormat s = some f ↔
      ∃ e, trailingExtension s = some e ∧ f = jsToLower e ∧ f ∈ imageFormats := by
  unfold getImageFormat trailingExtension
  rw [jsSplit_getLastD]
  by_cases hdot : s.data.contains '.' = true
  · rw [if_pos hdot]
    by_cases hc : imageFormats.contains
        (String.mk (((s.data.reverse.takeWhile (fun y => y ≠ '.')).reverse).map
          Char.toLower)) = true
    · rw [if_pos hc]
      constructor
      · intro h
        have hval := Option.some.inj h
        exact ⟨String.mk ((s.data.reverse.takeWhile (fun y => y ≠ '.')).reverse), rfl,
          hval.symm, hval ▸ List.mem_of_elem_eq_true hc⟩
      · rintro ⟨e, he, hf, _⟩
        have he' := Option.some.inj he
        rw [hf, ← he']
        rfl
    · rw [if_neg hc]
      constructor
      · intro h; exact absurd h (by simp)
      · rintro ⟨e, he, hf, hmem⟩
        exfalso
        apply hc
        have he' := Option.some.inj he
        have hfe : f = String.mk
            (((s.data.reverse.takeWhile (fun y => y ≠ '.')).reverse).map Char.toLower) := by
          rw [hf, ← he']
          rfl
        rw [← hfe]
        exact List.elem_eq_true_of_mem hmem
  · rw [if_neg hdot]
    have hnotmem : '.' ∉ s.data := by
      intro hm
      exact hdot (List.elem_eq_true_of_mem hm)
    have hall : ∀ y ∈ s.data.reverse, (fun y => decide (y ≠ '.')) y = true := by
      intro y hy
      simp only [decide_eq_true_eq]
      intro hyc
      exact hnotmem (hyc ▸ List.mem_reverse.mp hy)
    have hfull : (s.data.reverse.takeWhile (fun y => y ≠ '.')).reverse = s.data := by
      rw [List.takeWhile_eq_self_iff.mpr hall, List.reverse_reverse]
    rw [hfull]
    have hmemcolon : ':' ∈ s.data.map Char.toLower :=
      List.mem_map.mpr ⟨':', hcolon, by decide⟩
    have hnc : ¬ imageFormats.contains (String.mk (s.data.map Char.toLower)) = true := by
      intro hcontains
      exact no_colon_in_formats _ hmemcolon (List.mem_of_elem_eq_true hcontains)
    rw [if_neg hnc]
    constructor
    · intro h; exact absurd h (by simp)
    · rintro ⟨e, he, _, _⟩
      exact absurd he (by simp)

/-- **C8.** Every record produced by the `extractImages` loop has `src`
equal to the serialization of `new URL(rawSrc, baseUrl)` and `format`
computed by `getImageFormat` from that absolute URL; the format is
present iff the URL's lowercase trailing extension (the characters
after its last `.`, lowercased) is in the fixed allowlist, and then
equals it. -/
theorem extractImages_resolution (baseUrl : String) (rs : List RawImg) :
    ∀ m ∈ extractImagesGo baseUrl rs,
      ∃ src u, JSUrl.resolve src baseUrl = some u ∧
        m.src = u.href ∧ m.format = getImageFormat u.href ∧
        (∀ f, m.format = some f ↔
          ∃ e, trailingExtension m.src = some e ∧ f = jsToLower e ∧ f ∈ imageFormats) := by
  induction rs with
  | nil => intro m hm; simp [extractImagesGo] at hm
  | cons r rest ih =>
    intro m hm
    cases hsrc : r.src with
    | none => exact ih m (by simpa [extractImagesGo, hsrc] using hm)
    | some src =>
      by_cases hempty : src = ""
      · exact ih m (by simpa [extractImagesGo, hsrc, hempty] using hm)
      · cases hres : JSUrl.resolve src baseUrl with
        | none => simp [extractImagesGo, hsrc, hempty, hres] at hm
        | some u =>
          rw [show extractImagesGo baseUrl (r :: rest) =
              ({ src := u.href
                 alt := jsFalsyOr r.alt ""
                 title := nonEmptyOpt r.title
                 width := nonEmptyOpt r.width
                 height := nonEmptyOpt r.height
                 format := getImageFormat u.href } : ImageData) ::
                extractImagesGo baseUrl rest by
            simp [extractImagesGo, hsrc, hempty, hres]] at hm
          rcases List.mem_cons.mp hm with heq | hmem
          · subst heq
            exact ⟨src, u, hres, rfl, rfl,
              fun f => getImageFormat_iff u.href (href_colon u) f⟩
          · exact ih m hmem

/-- Witness for C8: a relative upper-case `logo.PNG` on base
`https://x.com/dir/page` resolves to an absolute URL with format `png`. -/
theorem extractImages_resolution_witness :
    ∃ src u, JSUrl.resolve src "https://x.com/dir/page" = some u ∧
      imgLogoRecord.src = u.href ∧
      imgLogoRecord.format = getImageFormat u.href ∧
      (∀ f, imgLogoRecord.format = some f ↔
        ∃ e, trailingExtension imgLogoRecord.src = some e ∧
          f = jsToLower e ∧ f ∈ imageFormats) :=
  extractImages_resolution "https://x.com/dir/page" [rawImgLogo] imgLogoRecord (by decide)

end SeleniumScrape
